import Mathlib

/-!
Shallow embedding of `zipline/data/us_equity_minutes.py`: the minute-indexing
scheme shared by `BcolzMinuteBarWriter` and `BcolzMinuteBarReader`.

Modelling conventions:
* a calendar date is its whole number of days since the epoch (`Date := Int`);
* a wall-clock instant is its whole number of seconds since the epoch
  (`Timestamp := Int`); `minute_dt.date()` / `env.normalize_date` is floor
  division by 86400;
* the 9:31 US/Eastern session open of a date `d` converted to UTC is
  abstracted as `86400 * d + 60 * openMin d`, where `openMin d` is the UTC
  minute-of-day of 9:31 US/Eastern on date `d` (871 under EST, 811 under EDT);
  `ValidOpen` records the physical facts about that conversion used by the
  code: the open lies inside day `d` and all 390 session minutes end before
  the next midnight UTC;
* numpy `uint32` columns store values modulo 2^32; a zero-initialized numpy
  array is a function that is 0 everywhere, with its length carried separately
  (`Cols.minutes_count`);
* `numpy.searchsorted` / `DatetimeIndex.searchsorted` (side `left`) on a
  sorted array is the number of elements strictly below the key.
-/

set_option maxRecDepth 40000

namespace ZiplineMinutes

/-- A calendar date, as a whole number of days since the epoch (UTC). -/
abbrev Date := Int

/-- A wall-clock instant, in whole seconds since the epoch (UTC). -/
abbrev Timestamp := Int

/-- `MINUTES_PER_DAY` from the source (the functions below hardcode the
literal 390 exactly as the source does). -/
def MINUTES_PER_DAY : Nat := 390

/-- The calendar date containing a timestamp (`minute_dt.date()`,
`env.normalize_date`): floor division of epoch-seconds by 86400. -/
def dateOf (t : Timestamp) : Date := t / 86400

/-- The session open of date `d`: 9:31 US/Eastern converted to UTC, where
`openMin d` is the UTC minute-of-day of that conversion on date `d`. -/
def sessionOpen (openMin : Date → Int) (d : Date) : Timestamp :=
  86400 * d + 60 * openMin d

/-- Physical facts about the 9:31 US/Eastern to UTC conversion that the
layout relies on: the open is inside day `d`, and the 390 session minutes
all end before the next midnight UTC. -/
def ValidOpen (openMin : Date → Int) : Prop :=
  ∀ d, 0 ≤ openMin d ∧ openMin d + 390 ≤ 1440

/-- numpy / pandas `searchsorted` with side `left` on a sorted array: the
insertion index of `x`, i.e. the number of elements strictly less than `x`.
Always a non-negative machine integer. -/
def searchsorted (l : List Int) (x : Int) : Nat :=
  l.countP (fun y => decide (y < x))

/-- `env.days_in_range(start, end)`: the trading days of the calendar lying
between the two dates inclusive. -/
def daysInRange (cal : List Date) (s e : Date) : List Date :=
  cal.filter (fun d => decide (s ≤ d) && decide (d ≤ e))

/-- The inner `pd.date_range(start=<9:31 US/Eastern of day>, periods=390,
freq="min")` of `full_minutes_for_days`: the 390 canonical minutes of one
trading day. -/
def minutesBlock (openMin : Date → Int) (d : Date) : List Timestamp :=
  (List.range 390).map (fun j : Nat => sessionOpen openMin d + 60 * (j : Int))

/-- `BcolzMinuteBarWriter.full_minutes_for_days`: for every trading day
between the normalized dates of `dt1` and `dt2`, the 390 canonical minutes
from that day's session open, flattened in order. -/
def fullMinutesForDays (cal : List Date) (openMin : Date → Int)
    (dt1 dt2 : Timestamp) : List Timestamp :=
  (daysInRange cal (dateOf dt1) (dateOf dt2)).flatMap (minutesBlock openMin)

/-- `BcolzMinuteBarReader._find_position_of_minute`. `cal` is the reader's
`trading_days` (the trading calendar sliced from the first trading day
onward). Mirrors the source line by line, including the `day_idx < 0`
guard returning `-1`. -/
def findPositionOfMinute (cal : List Date) (openMin : Date → Int)
    (minute_dt : Timestamp) : Int :=
  let day := dateOf minute_dt
  let day_idx : Int := (searchsorted cal day : Nat)
  if day_idx < 0 then -1
  else
    let day_open := sessionOpen openMin day
    let minutes_offset := (minute_dt - day_open) / 60
    390 * day_idx + minutes_offset

/-- One sparse OHLCV observation row (`row[1]` of `df.iterrows()`), with the
integer-encoded field values. `op/hi/lo/cl/vol` stand for the source's
open/high/low/close/volume (`open` is reserved in Lean). -/
structure Bar where
  op : Nat
  hi : Nat
  lo : Nat
  cl : Nat
  vol : Nat
deriving DecidableEq, Repr

/-- The six per-asset numpy columns of `_write_internal` (uint32 contents),
as functions from position to stored value, together with their common
allocated length `minutes_count`. -/
structure Cols where
  open_col : Nat → Nat
  high_col : Nat → Nat
  low_col : Nat → Nat
  close_col : Nat → Nat
  vol_col : Nat → Nat
  dt_col : Nat → Nat
  minutes_count : Nat

/-- `np.zeros(minutes_count, dtype=np.uint32)` for all six columns. -/
def zeroCols (n : Nat) : Cols :=
  { open_col := fun _ => 0
    high_col := fun _ => 0
    low_col := fun _ => 0
    close_col := fun _ => 0
    vol_col := fun _ => 0
    dt_col := fun _ => 0
    minutes_count := n }

/-- Storage of a value in a `uint32` cell: reduction modulo 2^32. -/
def u32 (v : Nat) : Nat := v % 4294967296

/-- The epoch-seconds of a timestamp as stored in a `uint32` cell
(`dt_col[idx] = dt.value / 1e9`), two's-complement style for negatives. -/
def u32ofInt (t : Int) : Nat := (t % 4294967296).toNat

/-- The body of the scatter loop of `_write_internal`: place one observation
row at index `minutes.searchsorted(dt)` in all six columns. -/
def scatterRow (minutes : List Timestamp) (cols : Cols)
    (row : Timestamp × Bar) : Cols :=
  let idx := searchsorted minutes row.1
  { cols with
    dt_col := Function.update cols.dt_col idx (u32ofInt row.1)
    open_col := Function.update cols.open_col idx (u32 row.2.op)
    high_col := Function.update cols.high_col idx (u32 row.2.hi)
    low_col := Function.update cols.low_col idx (u32 row.2.lo)
    close_col := Function.update cols.close_col idx (u32 row.2.cl)
    vol_col := Function.update cols.vol_col idx (u32 row.2.vol) }

/-- `df.index[-1]`: the timestamp of an asset's final observation (the
default is irrelevant: the source indexes a nonempty frame). -/
def lastTimestamp (obs : List (Timestamp × Bar)) : Timestamp :=
  ((obs.getLast?).map Prod.fst).getD 0

/-- The per-asset body of `_write_internal`: build the minute grid from the
first trading day `a`'s session open (`first_open`) through the final
observation, allocate six zero columns of the grid's length, and scatter
every observation of the frame at its `searchsorted` index. -/
def writeAssetCols (cal : List Date) (openMin : Date → Int) (a : Date)
    (obs : List (Timestamp × Bar)) : Cols :=
  let first_open := sessionOpen openMin a
  let minutes := fullMinutesForDays cal openMin first_open (lastTimestamp obs)
  obs.foldl (scatterRow minutes) (zeroCols minutes.length)

/-- The only failure `_write_internal` can signal before column data exists:
`os.makedirs(path)` raising because the destination already exists. -/
inductive WriteError where
  | destinationExists
deriving DecidableEq, Repr

/-- `join(directory, "{0}.bcolz".format(asset_id))`. -/
def assetPath (directory : String) (asset_id : Nat) : String :=
  directory ++ "/" ++ toString asset_id ++ ".bcolz"

/-- One asset's turn in `_write_internal`, including the exclusive
`os.makedirs(path)` creation: when the destination path already exists the
write fails before any column is built, otherwise the six columns are
produced. `existing` is the set of paths already present on disk. -/
def writeAsset (existing : List String) (directory : String) (asset_id : Nat)
    (cal : List Date) (openMin : Date → Int) (a : Date)
    (obs : List (Timestamp × Bar)) : Except WriteError Cols :=
  if assetPath directory asset_id ∈ existing then
    Except.error WriteError.destinationExists
  else
    Except.ok (writeAssetCols cal openMin a obs)

/-- The reader's cache `self._carrays`: one optional handle per
(field, asset) pair. A handle is modelled as the value the storage backend
(`self._get_ctable(asset)[field]`) produces for that pair. -/
structure ReaderState where
  carrays : String × Nat → Option Nat

/-- The cache as initialized by `BcolzMinuteBarReader.__init__`: empty for
every (field, asset). -/
def emptyReader : ReaderState := ⟨fun _ => none⟩

/-- `BcolzMinuteBarReader._open_minute_file`: return the cached handle when
present, otherwise open one via the backend `getCtable` and cache it. -/
def openMinuteFile (getCtable : String × Nat → Nat) (st : ReaderState)
    (field : String) (asset : Nat) : Nat × ReaderState :=
  match st.carrays (field, asset) with
  | some c => (c, st)
  | none =>
      let c := getCtable (field, asset)
      (c, ⟨Function.update st.carrays (field, asset) (some c)⟩)

/-- All six columns hold the zero sentinel at position `p`. -/
def ColsZeroAt (cols : Cols) (p : Nat) : Prop :=
  cols.open_col p = 0 ∧ cols.high_col p = 0 ∧ cols.low_col p = 0 ∧
  cols.close_col p = 0 ∧ cols.vol_col p = 0 ∧ cols.dt_col p = 0

/-- Position `p` of the six columns holds exactly the observation
`(t, bar)`: its five uint32-encoded values plus its epoch-seconds. -/
def ColsValueAt (cols : Cols) (p : Nat) (t : Timestamp) (bar : Bar) : Prop :=
  cols.open_col p = u32 bar.op ∧ cols.high_col p = u32 bar.hi ∧
  cols.low_col p = u32 bar.lo ∧ cols.close_col p = u32 bar.cl ∧
  cols.vol_col p = u32 bar.vol ∧ cols.dt_col p = u32ofInt t

/- Concrete instances used by the witnesses below: a two-day calendar
starting at the epoch, with the EST session open (9:31 US/Eastern =
minute 871 of the UTC day). -/

def exOpenMin : Date → Int := fun _ => 871

def exCal : List Date := [0, 1]

def exBar : Bar := ⟨100, 101, 99, 100, 5⟩

def exBar2 : Bar := ⟨200, 201, 199, 200, 7⟩

def exGetCtable : String × Nat → Nat := fun _ => 7

def exObs : List (Timestamp × Bar) :=
  [(sessionOpen exOpenMin 0 + 120, exBar), (sessionOpen exOpenMin 1, exBar2)]

def fieldOpen : String := "open"

def fieldClose : String := "close"

def exDir : String := "store"

/- ## Lemmas about `searchsorted` -/

theorem searchsorted_cons (a : Int) (l : List Int) (x : Int) :
    searchsorted (a :: l) x = searchsorted l x + if a < x then 1 else 0 := by
  simp [searchsorted, List.countP_cons]

theorem searchsorted_eq (l : List Int) (x : Int) (k : Nat) (hk : k ≤ l.length)
    (h1 : ∀ i (h : i < l.length), i < k → l.get ⟨i, h⟩ < x)
    (h2 : ∀ i (h : i < l.length), k ≤ i → x ≤ l.get ⟨i, h⟩) :
    searchsorted l x = k := by
  induction l generalizing k with
  | nil => simp only [List.length_nil, Nat.le_zero] at hk; simp [searchsorted, hk]
  | cons a l ih =>
    cases k with
    | zero =>
      have ha : ¬ a < x := not_lt.mpr (h2 0 (Nat.succ_pos _) (Nat.zero_le _))
      have hl : searchsorted l x = 0 :=
        ih 0 (Nat.zero_le _) (fun i h hi => absurd hi (Nat.not_lt_zero _))
          (fun i h _ => h2 (i + 1) (Nat.succ_lt_succ h) (Nat.zero_le _))
      rw [searchsorted_cons, hl, if_neg ha]
    | succ k =>
      have ha : a < x := h1 0 (Nat.succ_pos _) (Nat.succ_pos _)
      have hl : searchsorted l x = k :=
        ih k (Nat.le_of_succ_le_succ hk)
          (fun i h hi => h1 (i + 1) (Nat.succ_lt_succ h) (Nat.succ_lt_succ hi))
          (fun i h hi => h2 (i + 1) (Nat.succ_lt_succ h) (Nat.succ_le_succ hi))
      rw [searchsorted_cons, hl, if_pos ha]

theorem searchsorted_get (l : List Int) (hs : List.Sorted (· < ·) l)
    (k : Nat) (hk : k < l.length) : searchsorted l (l.get ⟨k, hk⟩) = k := by
  refine searchsorted_eq l _ k (le_of_lt hk) (fun i h hi => ?_) (fun i h hi => ?_)
  · exact hs.get_strictMono (Fin.mk_lt_mk.mpr hi)
  · rcases Nat.eq_or_lt_of_le hi with heq | hlt
    · cases heq; exact le_refl _
    · exact le_of_lt (hs.get_strictMono (Fin.mk_lt_mk.mpr hlt))

theorem searchsorted_between (l : List Int) (hs : List.Sorted (· < ·) l)
    (k : Nat) (hk : k < l.length) (x : Int) (h1 : l.get ⟨k, hk⟩ < x)
    (h2 : ∀ h : k + 1 < l.length, x ≤ l.get ⟨k + 1, h⟩) :
    searchsorted l x = k + 1 := by
  refine searchsorted_eq l x (k + 1) hk (fun i h hi => ?_) (fun i h hi => ?_)
  · rcases Nat.lt_succ_iff_lt_or_eq.mp hi with hlt | heq
    · exact lt_trans (hs.get_strictMono (Fin.mk_lt_mk.mpr hlt)) h1
    · cases heq; exact h1
  · have hk1 : k + 1 < l.length := lt_of_le_of_lt hi h
    rcases Nat.eq_or_lt_of_le hi with heq | hlt
    · cases heq; exact h2 h
    · exact le_trans (h2 hk1) (le_of_lt (hs.get_strictMono (Fin.mk_lt_mk.mpr hlt)))

theorem searchsorted_eq_zero (l : List Int) (x : Int) (h : ∀ y ∈ l, x ≤ y) :
    searchsorted l x = 0 :=
  List.countP_eq_zero.mpr (fun y hy => by simpa using not_lt.mpr (h y hy))

theorem searchsorted_eq_length (l : List Int) (x : Int) (h : ∀ y ∈ l, y < x) :
    searchsorted l x = l.length :=
  List.countP_eq_length.mpr (fun y hy => by simpa using h y hy)

/- ## Lemmas about dates and session opens -/

theorem dateOf_mul_add (d r : Int) (h0 : 0 ≤ r) (h1 : r < 86400) :
    dateOf (86400 * d + r) = d := by
  unfold dateOf
  rw [add_comm, Int.add_mul_ediv_left r d (by norm_num : (86400 : Int) ≠ 0),
    Int.ediv_eq_zero_of_lt h0 h1, zero_add]

theorem dateOf_sessionOpen_add (openMin : Date → Int) (ho : ValidOpen openMin)
    (d : Date) (m : Int) (h0 : 0 ≤ m) (h1 : m < 23400) :
    dateOf (sessionOpen openMin d + m) = d := by
  have hd := ho d
  have hrw : sessionOpen openMin d + m = 86400 * d + (60 * openMin d + m) := by
    unfold sessionOpen; ring
  rw [hrw, dateOf_mul_add d _ (by linarith [hd.1]) (by linarith [hd.2])]

theorem dateOf_sessionOpen (openMin : Date → Int) (ho : ValidOpen openMin)
    (d : Date) : dateOf (sessionOpen openMin d) = d := by
  simpa using dateOf_sessionOpen_add openMin ho d 0 le_rfl (by norm_num)

/- ## Lemmas about the canonical minute grid -/

theorem minutesBlock_length (openMin : Date → Int) (d : Date) :
    (minutesBlock openMin d).length = 390 := by
  unfold minutesBlock
  rw [List.length_map, List.length_range]

theorem minutesBlock_getElem? (openMin : Date → Int) (d : Date)
    (j : Nat) (hj : j < 390) :
    (minutesBlock openMin d)[j]? = some (sessionOpen openMin d + 60 * (j : Int)) := by
  unfold minutesBlock
  rw [List.getElem?_map, List.getElem?_range hj]
  rfl

theorem mem_minutesBlock (openMin : Date → Int) (d : Date) (x : Timestamp) :
    x ∈ minutesBlock openMin d
      ↔ ∃ j : Nat, j < 390 ∧ x = sessionOpen openMin d + 60 * (j : Int) := by
  unfold minutesBlock
  rw [List.mem_map]
  constructor
  · rintro ⟨j, hj, rfl⟩; exact ⟨j, List.mem_range.mp hj, rfl⟩
  · rintro ⟨j, hj, rfl⟩; exact ⟨j, List.mem_range.mpr hj, rfl⟩

theorem grid_length (openMin : Date → Int) (days : List Date) :
    (days.flatMap (minutesBlock openMin)).length = 390 * days.length := by
  induction days with
  | nil => simp
  | cons d rest ih =>
    rw [List.flatMap_cons, List.length_append, minutesBlock_length, ih,
      List.length_cons]
    ring

theorem grid_getElem? (openMin : Date → Int) (days : List Date)
    (i j : Nat) (hi : i < days.length) (hj : j < 390) :
    (days.flatMap (minutesBlock openMin))[390 * i + j]?
      = some (sessionOpen openMin (days.get ⟨i, hi⟩) + 60 * (j : Int)) := by
  induction days generalizing i with
  | nil => exact absurd hi (Nat.not_lt_zero _)
  | cons d rest ih =>
    rw [List.flatMap_cons, List.getElem?_append]
    cases i with
    | zero =>
      rw [if_pos (by rw [minutesBlock_length]; omega)]
      have hz : 390 * 0 + j = j := by omega
      rw [hz]
      exact minutesBlock_getElem? openMin d j hj
    | succ i =>
      rw [if_neg (by rw [minutesBlock_length]; omega)]
      have hsub : 390 * (i + 1) + j - (minutesBlock openMin d).length
          = 390 * i + j := by
        rw [minutesBlock_length]; omega
      rw [hsub]
      exact ih i (Nat.lt_of_succ_lt_succ hi)

theorem minutesBlock_sorted (openMin : Date → Int) (d : Date) :
    List.Sorted (· < ·) (minutesBlock openMin d) := by
  unfold minutesBlock
  refine List.pairwise_map.mpr ((List.pairwise_lt_range 390).imp ?_)
  intro a b hab
  have hab' : (a : Int) < (b : Int) := by exact_mod_cast hab
  linarith

theorem sessionOpen_cross_day_lt (openMin : Date → Int) (ho : ValidOpen openMin)
    (d d' : Date) (hdd : d < d') (j j' : Nat) (hj : j < 390) :
    sessionOpen openMin d + 60 * (j : Int)
      < sessionOpen openMin d' + 60 * (j' : Int) := by
  have h1 := ho d
  have h2 := ho d'
  have hd1 : d + 1 ≤ d' := hdd
  have hd2 : 86400 * (d + 1) ≤ 86400 * d' := by linarith
  have hjle : (j : Int) ≤ 389 := by exact_mod_cast Nat.le_of_lt_succ hj
  have hjp : (0 : Int) ≤ (j' : Int) := Int.natCast_nonneg _
  unfold sessionOpen
  linarith

theorem grid_sorted (openMin : Date → Int) (ho : ValidOpen openMin)
    (days : List Date) (hd : List.Sorted (· < ·) days) :
    List.Sorted (· < ·) (days.flatMap (minutesBlock openMin)) := by
  induction days with
  | nil => simp [List.Sorted]
  | cons d rest ih =>
    rw [List.flatMap_cons]
    refine List.pairwise_append.mpr
      ⟨minutesBlock_sorted openMin d, ih (List.sorted_cons.mp hd).2, ?_⟩
    intro x hx y hy
    obtain ⟨j, hj, rfl⟩ := (mem_minutesBlock openMin d x).mp hx
    obtain ⟨d', hd', hy'⟩ := List.mem_flatMap.mp hy
    obtain ⟨j', hj', rfl⟩ := (mem_minutesBlock openMin d' y).mp hy'
    exact sessionOpen_cross_day_lt openMin ho d d'
      ((List.sorted_cons.mp hd).1 d' hd') j j' hj

/- ## Lemmas about `daysInRange` -/

theorem daysInRange_anchor (cal : List Date) (a : Date)
    (ha : ∀ d ∈ cal, a ≤ d) (e : Date) :
    daysInRange cal a e = cal.filter (fun d => decide (d ≤ e)) := by
  unfold daysInRange
  refine List.filter_congr (fun x hx => ?_)
  simp [ha x hx]

theorem filter_le_eq_take (cal : List Date) (hs : List.Sorted (· < ·) cal)
    (i : Nat) (hi : i < cal.length) :
    cal.filter (fun d => decide (d ≤ cal.get ⟨i, hi⟩)) = cal.take (i + 1) := by
  induction cal generalizing i with
  | nil => exact absurd hi (Nat.not_lt_zero _)
  | cons c rest ih =>
    cases i with
    | zero =>
      have hall : rest.filter (fun d => decide (d ≤ c)) = [] := by
        refine List.filter_eq_nil_iff.mpr (fun y hy => ?_)
        simpa using not_le.mpr ((List.sorted_cons.mp hs).1 y hy)
      simp [List.filter_cons, hall]
    | succ i =>
      have hi' : i < rest.length := Nat.lt_of_succ_lt_succ hi
      have hc : c ≤ rest.get ⟨i, hi'⟩ :=
        le_of_lt ((List.sorted_cons.mp hs).1 _ (List.get_mem rest i hi'))
      have htail := ih (List.sorted_cons.mp hs).2 i hi'
      simp only [List.filter_cons, List.take_succ_cons]
      rw [if_pos (by simpa using hc)]
      exact congrArg (c :: ·) htail

theorem filter_le_prefix (cal : List Date) (hs : List.Sorted (· < ·) cal)
    (e : Date) :
    ∃ m, m ≤ cal.length ∧ cal.filter (fun d => decide (d ≤ e)) = cal.take m := by
  induction cal with
  | nil => exact ⟨0, by simp, by simp⟩
  | cons c rest ih =>
    rcases ih (List.sorted_cons.mp hs).2 with ⟨m, hm, hrest⟩
    by_cases hc : c ≤ e
    · exact ⟨m + 1, by simpa using hm, by simp [List.filter_cons, hc, hrest]⟩
    · refine ⟨0, Nat.zero_le _, ?_⟩
      have hall : ∀ y ∈ c :: rest, ¬ (decide (y ≤ e) = true) := by
        intro y hy
        rcases List.mem_cons.mp hy with rfl | hy'
        · simpa using hc
        · have : e < y := lt_trans (not_le.mp hc) ((List.sorted_cons.mp hs).1 y hy')
          simpa using not_le.mpr this
      simp [List.filter_eq_nil_iff.mpr hall]

/- ## Lemmas about `_find_position_of_minute` -/

theorem findPositionOfMinute_eq (cal : List Date) (openMin : Date → Int)
    (t : Timestamp) :
    findPositionOfMinute cal openMin t
      = 390 * (searchsorted cal (dateOf t) : Int)
        + (t - sessionOpen openMin (dateOf t)) / 60 := by
  unfold findPositionOfMinute
  rw [if_neg (not_lt.mpr (Int.natCast_nonneg _))]

theorem findPositionOfMinute_session (cal : List Date) (openMin : Date → Int)
    (hs : List.Sorted (· < ·) cal) (ho : ValidOpen openMin)
    (i : Nat) (hi : i < cal.length) (j : Nat) (hj : j < 390) (s : Int)
    (h0 : 0 ≤ s) (h1 : s < 60) :
    findPositionOfMinute cal openMin
        (sessionOpen openMin (cal.get ⟨i, hi⟩) + (60 * (j : Int) + s))
      = 390 * (i : Int) + (j : Int) := by
  have hm0 : (0 : Int) ≤ 60 * (j : Int) + s := by positivity
  have hm1 : 60 * (j : Int) + s < 23400 := by
    have : (j : Int) ≤ 389 := by exact_mod_cast Nat.le_of_lt_succ hj
    linarith
  have hdate : dateOf (sessionOpen openMin (cal.get ⟨i, hi⟩) + (60 * (j : Int) + s))
      = cal.get ⟨i, hi⟩ :=
    dateOf_sessionOpen_add openMin ho _ _ hm0 hm1
  rw [findPositionOfMinute_eq, hdate, searchsorted_get cal hs i hi]
  have hsimp : sessionOpen openMin (cal.get ⟨i, hi⟩) + (60 * (j : Int) + s)
      - sessionOpen openMin (cal.get ⟨i, hi⟩) = s + 60 * (j : Int) := by ring
  rw [hsimp, Int.add_mul_ediv_left s (j : Int) (by norm_num : (60 : Int) ≠ 0),
    Int.ediv_eq_zero_of_lt h0 h1, zero_add]

/- ## Lemmas about the scatter loop of `_write_internal` -/

theorem scatterRow_minutes_count (minutes : List Timestamp) (cols : Cols)
    (row : Timestamp × Bar) :
    (scatterRow minutes cols row).minutes_count = cols.minutes_count := rfl

theorem foldl_scatterRow_minutes_count (minutes : List Timestamp)
    (obs : List (Timestamp × Bar)) (init : Cols) :
    (obs.foldl (scatterRow minutes) init).minutes_count = init.minutes_count := by
  induction obs generalizing init with
  | nil => rfl
  | cons r rest ih => rw [List.foldl_cons, ih, scatterRow_minutes_count]

theorem foldl_scatterRow_untouched (minutes : List Timestamp)
    (obs : List (Timestamp × Bar)) (init : Cols) (p : Nat)
    (h : ∀ r ∈ obs, searchsorted minutes r.1 ≠ p) :
    (obs.foldl (scatterRow minutes) init).open_col p = init.open_col p ∧
    (obs.foldl (scatterRow minutes) init).high_col p = init.high_col p ∧
    (obs.foldl (scatterRow minutes) init).low_col p = init.low_col p ∧
    (obs.foldl (scatterRow minutes) init).close_col p = init.close_col p ∧
    (obs.foldl (scatterRow minutes) init).vol_col p = init.vol_col p ∧
    (obs.foldl (scatterRow minutes) init).dt_col p = init.dt_col p := by
  induction obs generalizing init with
  | nil => exact ⟨rfl, rfl, rfl, rfl, rfl, rfl⟩
  | cons r rest ih =>
    rw [List.foldl_cons]
    have hr : searchsorted minutes r.1 ≠ p := h r (List.mem_cons_self r rest)
    have htail := ih (scatterRow minutes init r)
      (fun r' hr' => h r' (List.mem_cons_of_mem r hr'))
    refine ⟨htail.1.trans ?_, htail.2.1.trans ?_, htail.2.2.1.trans ?_,
      htail.2.2.2.1.trans ?_, htail.2.2.2.2.1.trans ?_, htail.2.2.2.2.2.trans ?_⟩
    all_goals
      exact Function.update_noteq (Ne.symm hr) _ _

theorem scatterRow_self (minutes : List Timestamp) (cols : Cols)
    (t : Timestamp) (bar : Bar) :
    ColsValueAt (scatterRow minutes cols (t, bar)) (searchsorted minutes t) t bar := by
  refine ⟨?_, ?_, ?_, ?_, ?_, ?_⟩
  all_goals
    exact Function.update_same _ _ _

theorem foldl_scatterRow_mem (minutes : List Timestamp)
    (obs : List (Timestamp × Bar)) (init : Cols) (t : Timestamp) (bar : Bar)
    (hmem : (t, bar) ∈ obs)
    (hdist : obs.Pairwise
      (fun r r' => searchsorted minutes r.1 ≠ searchsorted minutes r'.1)) :
    ColsValueAt (obs.foldl (scatterRow minutes) init)
      (searchsorted minutes t) t bar := by
  induction obs generalizing init with
  | nil => cases hmem
  | cons r rest ih =>
    rw [List.foldl_cons]
    rcases List.mem_cons.mp hmem with heq | hmemr
    · cases heq
      have hrest : ∀ r' ∈ rest, searchsorted minutes r'.1 ≠ searchsorted minutes t :=
        fun r' hr' => Ne.symm ((List.pairwise_cons.mp hdist).1 r' hr')
      have hu := foldl_scatterRow_untouched minutes rest
        (scatterRow minutes init (t, bar)) (searchsorted minutes t) hrest
      have hself := scatterRow_self minutes init t bar
      exact ⟨hu.1.trans hself.1, hu.2.1.trans hself.2.1, hu.2.2.1.trans hself.2.2.1,
        hu.2.2.2.1.trans hself.2.2.2.1, hu.2.2.2.2.1.trans hself.2.2.2.2.1,
        hu.2.2.2.2.2.trans hself.2.2.2.2.2⟩
    · exact ih (scatterRow minutes init r) hmemr (List.pairwise_cons.mp hdist).2

/- ## Facts about the concrete witness instances -/

theorem exCal_sorted : List.Sorted (· < ·) exCal := by decide

theorem exCal_anchor : ∀ d ∈ exCal, (0 : Int) ≤ d := by decide

theorem exOpenMin_valid : ValidOpen exOpenMin :=
  fun _ => ⟨by norm_num [exOpenMin], by norm_num [exOpenMin]⟩

/- ## Claim C10 -/

/-- C10: the `day_idx < 0` branch of `_find_position_of_minute` is
unreachable (numpy `searchsorted` returns a non-negative insertion index),
so the function always returns the arithmetically computed integer
`390 * day_idx + minutes_offset`; in particular, for a timestamp whose date
precedes the first trading day it returns `390 * 0` plus the (possibly
negative) minute difference rather than `-1` or an error. -/
theorem findPositionOfMinute_guard_dead (cal : List Date) (openMin : Date → Int)
    (t : Timestamp) :
    ¬ ((searchsorted cal (dateOf t) : Int) < 0) ∧
    findPositionOfMinute cal openMin t
      = 390 * (searchsorted cal (dateOf t) : Int)
        + (t - sessionOpen openMin (dateOf t)) / 60 ∧
    ((∀ d ∈ cal, dateOf t < d) →
      findPositionOfMinute cal openMin t
        = 390 * ((0 : Nat) : Int) + (t - sessionOpen openMin (dateOf t)) / 60) := by
  refine ⟨not_lt.mpr (Int.natCast_nonneg _), findPositionOfMinute_eq cal openMin t, ?_⟩
  intro hall
  rw [findPositionOfMinute_eq,
    searchsorted_eq_zero cal _ (fun y hy => le_of_lt (hall y hy))]

/-- C10 witness: a timestamp two days before the calendar resolves to the
arithmetic value (here 342), through the formula with day index 0. -/
theorem findPositionOfMinute_guard_dead_witness :
    findPositionOfMinute exCal exOpenMin (-100000)
      = 390 * ((0 : Nat) : Int)
        + ((-100000) - sessionOpen exOpenMin (dateOf (-100000))) / 60 ∧
    findPositionOfMinute exCal exOpenMin (-100000) = 342 := by
  have h := (findPositionOfMinute_guard_dead exCal exOpenMin (-100000)).2.2 (by decide)
  exact ⟨h, by decide⟩

/- ## Claim C2 -/

/-- C2 counterexample: the claim says a timestamp on a trading day whose
minute index is outside [0, 390) makes offset resolution fail with
`OutOfSessionRange`; in fact `_find_position_of_minute` has no session-bounds
check at all. One minute after the 390th minute of day 0 it returns the
ordinary offset 390 — the very offset of day 1's first minute — rather than
failing. -/
theorem findPositionOfMinute_out_of_session_counterexample :
    findPositionOfMinute exCal exOpenMin (sessionOpen exOpenMin 0 + 390 * 60) = 390 ∧
    findPositionOfMinute exCal exOpenMin (sessionOpen exOpenMin 1) = 390 := by
  decide

/-- C2 (amended): `_find_position_of_minute` performs no session-bounds
check: for any timestamp `t` whose extracted date is the trading day at
index `i`, it returns `390 * i + (t - day_open) / 60` unconditionally, even
when the minute index is negative or at least 390 (so one minute before the
anchor day's open yields -1 as an arithmetic value, and one minute past the
390th minute yields the next day's first offset). -/
theorem findPositionOfMinute_no_session_check (cal : List Date)
    (openMin : Date → Int) (hs : List.Sorted (· < ·) cal)
    (i : Nat) (hi : i < cal.length) (t : Timestamp)
    (hd : dateOf t = cal.get ⟨i, hi⟩) :
    findPositionOfMinute cal openMin t
      = 390 * (i : Int) + (t - sessionOpen openMin (cal.get ⟨i, hi⟩)) / 60 := by
  rw [findPositionOfMinute_eq, hd, searchsorted_get cal hs i hi]

/-- C2 witness: one minute before the anchor day's session open resolves to
the arithmetic value -1, not an error. -/
theorem findPositionOfMinute_no_session_check_witness :
    findPositionOfMinute exCal exOpenMin (sessionOpen exOpenMin 0 - 60) = -1 :=
  (findPositionOfMinute_no_session_check exCal exOpenMin exCal_sorted 0
    (by decide) (sessionOpen exOpenMin 0 - 60) (by decide)).trans (by decide)

/- ## Claim C3 -/

/-- C3: with calendar [day 0, day 7], a timestamp on the absent date 3 does
not fail with `OutOfCalendarRange`: `searchsorted` returns the insertion
index 1 (it is never negative, so the `day_idx < 0` guard that was meant to
catch this is dead), and the session open of the absent day 3 resolves to
offset 390 — the same offset as day 7's first minute. -/
theorem findPositionOfMinute_absent_date_aliases :
    findPositionOfMinute [(0 : Int), 7] exOpenMin (sessionOpen exOpenMin 3) = 390 ∧
    findPositionOfMinute [(0 : Int), 7] exOpenMin (sessionOpen exOpenMin 7) = 390 := by
  decide

/- ## Claim C1 -/

/-- C1: for every trading day index `i` (at or after the anchor, within the
grid) and minute index `j < 390`, the `(390*i + j)`-th timestamp of the grid
built by `full_minutes_for_days` is the `j`-th minute of day `i`, and
`_find_position_of_minute` maps it back to exactly `390*i + j`; moreover
`(i, j) ↦ 390*i + j` is a bijection between pairs with `j < 390` and the
non-negative integers. -/
theorem grid_position_roundtrip_bijection
    (cal : List Date) (openMin : Date → Int) (a : Date)
    (hs : List.Sorted (· < ·) cal) (ho : ValidOpen openMin)
    (ha : ∀ d ∈ cal, a ≤ d)
    (dN i j : Nat) (hdN : dN < cal.length) (hi : i ≤ dN) (hj : j < 390) :
    (fullMinutesForDays cal openMin (sessionOpen openMin a)
        (sessionOpen openMin (cal.get ⟨dN, hdN⟩)))[390 * i + j]?
      = some (sessionOpen openMin (cal.get ⟨i, lt_of_le_of_lt hi hdN⟩)
          + 60 * (j : Int)) ∧
    findPositionOfMinute cal openMin
        (sessionOpen openMin (cal.get ⟨i, lt_of_le_of_lt hi hdN⟩) + 60 * (j : Int))
      = 390 * (i : Int) + (j : Int) ∧
    (∀ i1 j1 i2 j2 : Nat, j1 < 390 → j2 < 390 →
      390 * i1 + j1 = 390 * i2 + j2 → i1 = i2 ∧ j1 = j2) ∧
    (∀ k : Nat, k = 390 * (k / 390) + k % 390 ∧ k % 390 < 390) := by
  have hgrid : fullMinutesForDays cal openMin (sessionOpen openMin a)
      (sessionOpen openMin (cal.get ⟨dN, hdN⟩))
      = (cal.take (dN + 1)).flatMap (minutesBlock openMin) := by
    unfold fullMinutesForDays
    rw [dateOf_sessionOpen openMin ho a, dateOf_sessionOpen openMin ho _,
      daysInRange_anchor cal a ha, filter_le_eq_take cal hs dN hdN]
  refine ⟨?_, ?_, ?_, ?_⟩
  · rw [hgrid]
    have hlen : i < (cal.take (dN + 1)).length := by
      rw [List.length_take]; omega
    rw [grid_getElem? openMin _ i j hlen hj]
    have hsame : (cal.take (dN + 1)).get ⟨i, hlen⟩
        = cal.get ⟨i, lt_of_le_of_lt hi hdN⟩ := by
      rw [List.get_eq_getElem, List.get_eq_getElem, List.getElem_take]
    rw [hsame]
  · have h := findPositionOfMinute_session cal openMin hs ho i
      (lt_of_le_of_lt hi hdN) j hj 0 le_rfl (by norm_num)
    simpa using h
  · intro i1 j1 i2 j2 h1 h2 heq
    omega
  · intro k
    constructor
    · omega
    · exact Nat.mod_lt k (by norm_num)

/-- C1 witness: on the two-day calendar, grid position 395 is minute 5 of
day 1 and resolves back to 395; the pair decomposition is unique. -/
theorem grid_position_roundtrip_bijection_witness :
    (fullMinutesForDays exCal exOpenMin (sessionOpen exOpenMin 0)
        (sessionOpen exOpenMin 1))[390 * 1 + 5]?
      = some (sessionOpen exOpenMin 1 + 60 * ((5 : Nat) : Int)) ∧
    findPositionOfMinute exCal exOpenMin
        (sessionOpen exOpenMin 1 + 60 * ((5 : Nat) : Int))
      = 390 * ((1 : Nat) : Int) + ((5 : Nat) : Int) ∧
    ((1 : Nat) = 1 ∧ (5 : Nat) = 5) ∧
    (395 = 390 * (395 / 390) + 395 % 390 ∧ 395 % 390 < 390) := by
  have h := grid_position_roundtrip_bijection exCal exOpenMin 0 exCal_sorted
    exOpenMin_valid exCal_anchor 1 1 5 (by decide) (by decide) (by decide)
  exact ⟨h.1, h.2.1, h.2.2.1 1 5 1 5 (by decide) (by decide) rfl, h.2.2.2 395⟩

/- ## Claim C9 -/

/-- C9: on a timestamp that is exactly a canonical grid minute, the writer's
scatter index `minutes.searchsorted(dt)` and the reader's offset
`_find_position_of_minute(dt)` agree (both are `390*i + j`); on a timestamp
strictly between two consecutive grid minutes of the same session, the
writer's index is one more than the reader's offset (searchsorted rounds
forward, the floor division rounds down). -/
theorem writer_reader_index_agreement
    (cal : List Date) (openMin : Date → Int) (a : Date)
    (hs : List.Sorted (· < ·) cal) (ho : ValidOpen openMin)
    (ha : ∀ d ∈ cal, a ≤ d)
    (dN i j : Nat) (hdN : dN < cal.length) (hi : i ≤ dN) (hj : j < 390) :
    (searchsorted (fullMinutesForDays cal openMin (sessionOpen openMin a)
          (sessionOpen openMin (cal.get ⟨dN, hdN⟩)))
        (sessionOpen openMin (cal.get ⟨i, lt_of_le_of_lt hi hdN⟩) + 60 * (j : Int))
      = 390 * i + j ∧
    findPositionOfMinute cal openMin
        (sessionOpen openMin (cal.get ⟨i, lt_of_le_of_lt hi hdN⟩) + 60 * (j : Int))
      = 390 * (i : Int) + (j : Int)) ∧
    (∀ s : Int, 0 < s → s < 60 → j + 1 < 390 →
      searchsorted (fullMinutesForDays cal openMin (sessionOpen openMin a)
            (sessionOpen openMin (cal.get ⟨dN, hdN⟩)))
          (sessionOpen openMin (cal.get ⟨i, lt_of_le_of_lt hi hdN⟩)
            + 60 * (j : Int) + s)
        = 390 * i + j + 1 ∧
      findPositionOfMinute cal openMin
          (sessionOpen openMin (cal.get ⟨i, lt_of_le_of_lt hi hdN⟩)
            + 60 * (j : Int) + s)
        = 390 * (i : Int) + (j : Int)) := by
  have hgrid : fullMinutesForDays cal openMin (sessionOpen openMin a)
      (sessionOpen openMin (cal.get ⟨dN, hdN⟩))
      = (cal.take (dN + 1)).flatMap (minutesBlock openMin) := by
    unfold fullMinutesForDays
    rw [dateOf_sessionOpen openMin ho a, dateOf_sessionOpen openMin ho _,
      daysInRange_anchor cal a ha, filter_le_eq_take cal hs dN hdN]
  have hdays : List.Sorted (· < ·) (cal.take (dN + 1)) :=
    List.Pairwise.sublist (List.take_sublist (dN + 1) cal) hs
  have hsorted : List.Sorted (· < ·) (fullMinutesForDays cal openMin
      (sessionOpen openMin a) (sessionOpen openMin (cal.get ⟨dN, hdN⟩))) := by
    rw [hgrid]; exact grid_sorted openMin ho _ hdays
  have hilen : i < (cal.take (dN + 1)).length := by
    rw [List.length_take]; omega
  have hsame : (cal.take (dN + 1)).get ⟨i, hilen⟩
      = cal.get ⟨i, lt_of_le_of_lt hi hdN⟩ := by
    rw [List.get_eq_getElem, List.get_eq_getElem, List.getElem_take]
  have hgetk : (fullMinutesForDays cal openMin (sessionOpen openMin a)
        (sessionOpen openMin (cal.get ⟨dN, hdN⟩)))[390 * i + j]?
      = some (sessionOpen openMin (cal.get ⟨i, lt_of_le_of_lt hi hdN⟩)
          + 60 * (j : Int)) := by
    rw [hgrid, grid_getElem? openMin _ i j hilen hj, hsame]
  obtain ⟨hklen, hkval⟩ := List.getElem?_eq_some_iff.mp hgetk
  have hvalk : (fullMinutesForDays cal openMin (sessionOpen openMin a)
        (sessionOpen openMin (cal.get ⟨dN, hdN⟩))).get ⟨390 * i + j, hklen⟩
      = sessionOpen openMin (cal.get ⟨i, lt_of_le_of_lt hi hdN⟩)
        + 60 * (j : Int) := hkval
  constructor
  · constructor
    · rw [← hvalk]
      exact searchsorted_get _ hsorted (390 * i + j) hklen
    · have h := findPositionOfMinute_session cal openMin hs ho i
        (lt_of_le_of_lt hi hdN) j hj 0 le_rfl (by norm_num)
      simpa using h
  · intro s hs0 hs1 hj1
    constructor
    · refine searchsorted_between _ hsorted (390 * i + j) hklen _ ?_ ?_
      · rw [hvalk]; linarith
      · intro hlen1
        have hget1 : (fullMinutesForDays cal openMin (sessionOpen openMin a)
              (sessionOpen openMin (cal.get ⟨dN, hdN⟩)))[390 * i + (j + 1)]?
            = some (sessionOpen openMin (cal.get ⟨i, lt_of_le_of_lt hi hdN⟩)
                + 60 * ((j + 1 : Nat) : Int)) := by
          rw [hgrid, grid_getElem? openMin _ i (j + 1) hilen hj1, hsame]
        obtain ⟨hlen2, hval2⟩ := List.getElem?_eq_some_iff.mp hget1
        have hfin : (⟨390 * i + j + 1, hlen1⟩ :
              Fin (fullMinutesForDays cal openMin (sessionOpen openMin a)
                (sessionOpen openMin (cal.get ⟨dN, hdN⟩))).length)
            = ⟨390 * i + (j + 1), hlen2⟩ := by
          simp only [Fin.mk.injEq]
          omega
        have hval3 : (fullMinutesForDays cal openMin (sessionOpen openMin a)
              (sessionOpen openMin (cal.get ⟨dN, hdN⟩))).get ⟨390 * i + j + 1, hlen1⟩
            = sessionOpen openMin (cal.get ⟨i, lt_of_le_of_lt hi hdN⟩)
              + 60 * ((j + 1 : Nat) : Int) := by
          rw [hfin]; exact hval2
        rw [hval3]
        push_cast
        linarith
    · have h := findPositionOfMinute_session cal openMin hs ho i
        (lt_of_le_of_lt hi hdN) j hj s (le_of_lt hs0) hs1
      rw [← add_assoc] at h
      exact h

/-- C9 witness: on the two-day calendar, the session-open minute of day 0
scatters to index 0 and reads back as offset 0, while a timestamp 30
seconds later scatters to index 1 but reads back as offset 0. -/
theorem writer_reader_index_agreement_witness :
    (searchsorted (fullMinutesForDays exCal exOpenMin (sessionOpen exOpenMin 0)
          (sessionOpen exOpenMin 1))
        (sessionOpen exOpenMin 0 + 60 * ((0 : Nat) : Int)) = 390 * 0 + 0 ∧
    findPositionOfMinute exCal exOpenMin
        (sessionOpen exOpenMin 0 + 60 * ((0 : Nat) : Int))
      = 390 * ((0 : Nat) : Int) + ((0 : Nat) : Int)) ∧
    (searchsorted (fullMinutesForDays exCal exOpenMin (sessionOpen exOpenMin 0)
          (sessionOpen exOpenMin 1))
        (sessionOpen exOpenMin 0 + 60 * ((0 : Nat) : Int) + 30) = 390 * 0 + 0 + 1 ∧
    findPositionOfMinute exCal exOpenMin
        (sessionOpen exOpenMin 0 + 60 * ((0 : Nat) : Int) + 30)
      = 390 * ((0 : Nat) : Int) + ((0 : Nat) : Int)) := by
  have h := writer_reader_index_agreement exCal exOpenMin 0 exCal_sorted
    exOpenMin_valid exCal_anchor 1 0 0 (by decide) (by decide) (by decide)
  exact ⟨h.1, h.2 30 (by decide) (by decide) (by decide)⟩

/- ## Claim C4 -/

/-- C4: writing a sparse frame with exactly one observation, on trading day
`cal[dI]` at the day's minute 0 (session open), produces six columns of
common length `390 * (dI + 1)` in which every position other than
`390 * dI` holds the zero sentinel in all six fields. -/
theorem single_observation_zero_fill
    (cal : List Date) (openMin : Date → Int) (a : Date)
    (hs : List.Sorted (· < ·) cal) (ho : ValidOpen openMin)
    (ha : ∀ d ∈ cal, a ≤ d)
    (dI : Nat) (hdI : dI < cal.length) (bar : Bar) :
    (writeAssetCols cal openMin a
        [(sessionOpen openMin (cal.get ⟨dI, hdI⟩), bar)]).minutes_count
      = 390 * (dI + 1) ∧
    ∀ p : Nat, p ≠ 390 * dI →
      ColsZeroAt (writeAssetCols cal openMin a
        [(sessionOpen openMin (cal.get ⟨dI, hdI⟩), bar)]) p := by
  have hgrid : fullMinutesForDays cal openMin (sessionOpen openMin a)
      (sessionOpen openMin (cal.get ⟨dI, hdI⟩))
      = (cal.take (dI + 1)).flatMap (minutesBlock openMin) := by
    unfold fullMinutesForDays
    rw [dateOf_sessionOpen openMin ho a, dateOf_sessionOpen openMin ho _,
      daysInRange_anchor cal a ha, filter_le_eq_take cal hs dI hdI]
  have hw : writeAssetCols cal openMin a
        [(sessionOpen openMin (cal.get ⟨dI, hdI⟩), bar)]
      = scatterRow (fullMinutesForDays cal openMin (sessionOpen openMin a)
            (sessionOpen openMin (cal.get ⟨dI, hdI⟩)))
          (zeroCols (fullMinutesForDays cal openMin (sessionOpen openMin a)
            (sessionOpen openMin (cal.get ⟨dI, hdI⟩))).length)
          (sessionOpen openMin (cal.get ⟨dI, hdI⟩), bar) := rfl
  have hdays : List.Sorted (· < ·) (cal.take (dI + 1)) :=
    List.Pairwise.sublist (List.take_sublist (dI + 1) cal) hs
  have hsorted : List.Sorted (· < ·) (fullMinutesForDays cal openMin
      (sessionOpen openMin a) (sessionOpen openMin (cal.get ⟨dI, hdI⟩))) := by
    rw [hgrid]; exact grid_sorted openMin ho _ hdays
  have hilen : dI < (cal.take (dI + 1)).length := by
    rw [List.length_take]; omega
  have hsame : (cal.take (dI + 1)).get ⟨dI, hilen⟩ = cal.get ⟨dI, hdI⟩ := by
    rw [List.get_eq_getElem, List.get_eq_getElem, List.getElem_take]
  have hgetk : (fullMinutesForDays cal openMin (sessionOpen openMin a)
        (sessionOpen openMin (cal.get ⟨dI, hdI⟩)))[390 * dI + 0]?
      = some (sessionOpen openMin (cal.get ⟨dI, hdI⟩) + 60 * ((0 : Nat) : Int)) := by
    rw [hgrid, grid_getElem? openMin _ dI 0 hilen (by norm_num), hsame]
  obtain ⟨hklen, hkval⟩ := List.getElem?_eq_some_iff.mp hgetk
  have hvalk : (fullMinutesForDays cal openMin (sessionOpen openMin a)
        (sessionOpen openMin (cal.get ⟨dI, hdI⟩))).get ⟨390 * dI + 0, hklen⟩
      = sessionOpen openMin (cal.get ⟨dI, hdI⟩) + 60 * ((0 : Nat) : Int) := hkval
  have hidx : searchsorted (fullMinutesForDays cal openMin (sessionOpen openMin a)
        (sessionOpen openMin (cal.get ⟨dI, hdI⟩)))
      (sessionOpen openMin (cal.get ⟨dI, hdI⟩)) = 390 * dI := by
    have h := searchsorted_get _ hsorted (390 * dI + 0) hklen
    rw [hvalk] at h
    simpa using h
  constructor
  · rw [hw, scatterRow_minutes_count]
    show (fullMinutesForDays cal openMin (sessionOpen openMin a)
      (sessionOpen openMin (cal.get ⟨dI, hdI⟩))).length = 390 * (dI + 1)
    rw [hgrid, grid_length, List.length_take]
    omega
  · intro p hp
    rw [hw]
    unfold ColsZeroAt scatterRow
    have hne : p ≠ searchsorted (fullMinutesForDays cal openMin
        (sessionOpen openMin a) (sessionOpen openMin (cal.get ⟨dI, hdI⟩)))
        (sessionOpen openMin (cal.get ⟨dI, hdI⟩)) := by
      rw [hidx]; exact hp
    refine ⟨?_, ?_, ?_, ?_, ?_, ?_⟩
    all_goals
      exact Function.update_noteq hne _ _

/-- C4 witness: one observation at the open of day 1 of the two-day calendar
yields columns of length 780 that are zero away from offset 390 (checked at
position 0). -/
theorem single_observation_zero_fill_witness :
    (writeAssetCols exCal exOpenMin 0
        [(sessionOpen exOpenMin 1, exBar)]).minutes_count = 390 * (1 + 1) ∧
    ColsZeroAt (writeAssetCols exCal exOpenMin 0
        [(sessionOpen exOpenMin 1, exBar)]) 0 := by
  have h := single_observation_zero_fill exCal exOpenMin 0 exCal_sorted
    exOpenMin_valid exCal_anchor 1 (by decide) exBar
  exact ⟨h.1, h.2 0 (by decide)⟩

/- ## Claim C5 -/

/-- C5 counterexample: the claim says every observation written reads back
exactly at its own timestamp. For an observation 30 seconds after the
session open (a timestamp not on the canonical minute grid) the writer
scatters the value at `searchsorted` index 1 while the reader resolves the
same timestamp to offset 0, so the read returns the zero sentinel, not the
written value 100. -/
theorem written_value_roundtrip_counterexample :
    (writeAssetCols [(0 : Int)] exOpenMin 0
        [(sessionOpen exOpenMin 0 + 30, exBar)]).open_col
        (Int.toNat (findPositionOfMinute [(0 : Int)] exOpenMin
          (sessionOpen exOpenMin 0 + 30)))
      = 0 ∧
    (writeAssetCols [(0 : Int)] exOpenMin 0
        [(sessionOpen exOpenMin 0 + 30, exBar)]).open_col 1 = u32 exBar.op ∧
    u32 exBar.op = 100 ∧ (0 : Nat) ≠ 100 := by
  decide

/-- C5 (amended): for every observation whose timestamp lies exactly on the
canonical minute grid, with pairwise distinct observation timestamps (the
frame is a time-indexed mapping), a subsequent read at the same timestamp —
`_find_position_of_minute` followed by indexing the stored column — returns
exactly the stored uint32 value of every written field, and the stored `dt`
column at that offset is the observation timestamp's epoch-seconds (as a
uint32). For timestamps off the grid the round trip can fail (see the
counterexample). -/
theorem written_value_roundtrip_on_grid
    (cal : List Date) (openMin : Date → Int) (a : Date)
    (hs : List.Sorted (· < ·) cal) (ho : ValidOpen openMin)
    (ha : ∀ d ∈ cal, a ≤ d)
    (obs : List (Timestamp × Bar))
    (hobs : ∀ r ∈ obs, ∃ k : Nat,
      (fullMinutesForDays cal openMin (sessionOpen openMin a)
        (lastTimestamp obs))[k]? = some r.1)
    (hdist : obs.Pairwise (fun r r' => r.1 ≠ r'.1))
    (t : Timestamp) (bar : Bar) (hmem : (t, bar) ∈ obs) :
    ColsValueAt (writeAssetCols cal openMin a obs)
      (Int.toNat (findPositionOfMinute cal openMin t)) t bar := by
  set minutes := fullMinutesForDays cal openMin (sessionOpen openMin a)
    (lastTimestamp obs) with hmdef
  obtain ⟨m, hmlen, htake⟩ : ∃ m, m ≤ cal.length
      ∧ minutes = (cal.take m).flatMap (minutesBlock openMin) := by
    obtain ⟨m, hm, hf⟩ := filter_le_prefix cal hs (dateOf (lastTimestamp obs))
    refine ⟨m, hm, ?_⟩
    rw [hmdef]
    unfold fullMinutesForDays
    rw [dateOf_sessionOpen openMin ho a, daysInRange_anchor cal a ha, hf]
  have hdays : List.Sorted (· < ·) (cal.take m) :=
    List.Pairwise.sublist (List.take_sublist m cal) hs
  have hsorted : List.Sorted (· < ·) minutes := by
    rw [htake]; exact grid_sorted openMin ho _ hdays
  -- the grid position of any observation determines its timestamp
  have hform : ∀ r ∈ obs, ∀ k : Nat, minutes[k]? = some r.1 →
      searchsorted minutes r.1 = k := by
    intro r hr k hk
    obtain ⟨hklen, hkval⟩ := List.getElem?_eq_some_iff.mp hk
    have hvalk : minutes.get ⟨k, hklen⟩ = r.1 := hkval
    rw [← hvalk]
    exact searchsorted_get minutes hsorted k hklen
  -- the timestamp of the target observation
  obtain ⟨k, hk⟩ := hobs (t, bar) hmem
  obtain ⟨hklen, hkval⟩ := List.getElem?_eq_some_iff.mp hk
  have hidx : searchsorted minutes t = k := hform (t, bar) hmem k hk
  have hklen' : k < 390 * (cal.take m).length := by
    rw [htake, grid_length] at hklen
    exact hklen
  have hij : k = 390 * (k / 390) + k % 390 ∧ k % 390 < 390
      ∧ k / 390 < (cal.take m).length := by
    refine ⟨(Nat.div_add_mod k 390).symm, Nat.mod_lt k (by norm_num), ?_⟩
    exact Nat.div_lt_of_lt_mul (by omega)
  have hicard : k / 390 < cal.length := by
    have := hij.2.2
    rw [List.length_take] at this
    omega
  have hsame : (cal.take m).get ⟨k / 390, hij.2.2⟩ = cal.get ⟨k / 390, hicard⟩ := by
    rw [List.get_eq_getElem, List.get_eq_getElem, List.getElem_take]
  have hgetk : minutes[390 * (k / 390) + k % 390]?
      = some (sessionOpen openMin (cal.get ⟨k / 390, hicard⟩)
          + 60 * ((k % 390 : Nat) : Int)) := by
    rw [htake, grid_getElem? openMin _ (k / 390) (k % 390) hij.2.2 hij.2.1, hsame]
  have ht : t = sessionOpen openMin (cal.get ⟨k / 390, hicard⟩)
      + 60 * ((k % 390 : Nat) : Int) := by
    have h1 : minutes[k]? = some (sessionOpen openMin (cal.get ⟨k / 390, hicard⟩)
        + 60 * ((k % 390 : Nat) : Int)) := by
      rw [← hij.1] at hgetk
      exact hgetk
    rw [hk] at h1
    exact Option.some.inj h1
  have hpos : findPositionOfMinute cal openMin t
      = 390 * ((k / 390 : Nat) : Int) + ((k % 390 : Nat) : Int) := by
    rw [ht]
    have h := findPositionOfMinute_session cal openMin hs ho (k / 390) hicard
      (k % 390) hij.2.1 0 le_rfl (by norm_num)
    simpa using h
  have htn : Int.toNat (findPositionOfMinute cal openMin t) = k := by
    rw [hpos]
    omega
  have hdistIdx : obs.Pairwise
      (fun r r' => searchsorted minutes r.1 ≠ searchsorted minutes r'.1) := by
    refine List.Pairwise.imp_of_mem ?_ hdist
    intro r r' hr hr' hne heq
    obtain ⟨kr, hkr⟩ := hobs r hr
    obtain ⟨kr', hkr'⟩ := hobs r' hr'
    have e1 : searchsorted minutes r.1 = kr := hform r hr kr hkr
    have e2 : searchsorted minutes r'.1 = kr' := hform r' hr' kr' hkr'
    apply hne
    have hkk : kr = kr' := by rw [← e1, ← e2, heq]
    rw [hkk] at hkr
    rw [hkr] at hkr'
    exact Option.some.inj hkr'
  have hw : writeAssetCols cal openMin a obs
      = obs.foldl (scatterRow minutes) (zeroCols minutes.length) := by
    rw [hmdef]; rfl
  rw [hw, htn, ← hidx]
  exact foldl_scatterRow_mem minutes obs _ t bar hmem hdistIdx

/-- C5 witness: a two-observation frame (minute 2 of day 0 and the open of
day 1) reads back exactly at the first observation's timestamp. -/
theorem written_value_roundtrip_on_grid_witness :
    ColsValueAt (writeAssetCols exCal exOpenMin 0 exObs)
      (Int.toNat (findPositionOfMinute exCal exOpenMin
        (sessionOpen exOpenMin 0 + 120)))
      (sessionOpen exOpenMin 0 + 120) exBar := by
  have h := written_value_roundtrip_on_grid exCal exOpenMin 0 exCal_sorted
    exOpenMin_valid exCal_anchor exObs ?_ (by decide)
    (sessionOpen exOpenMin 0 + 120) exBar (by decide)
  · exact h
  · intro r hr
    rcases List.mem_cons.mp hr with rfl | hr2
    · exact ⟨2, by decide⟩
    · rcases List.mem_cons.mp hr2 with rfl | hr3
      · exact ⟨390, by decide⟩
      · cases hr3

/- ## Claim C6 -/

/-- C6 counterexample: the claim says an observation outside the computed
minute grid makes the write fail and is never silently written. With a
one-day grid and an observation two minutes before the session open, the
write succeeds and the out-of-grid observation is silently scattered at
offset 0 (the anchor day's first minute): its open value and its own
pre-open epoch-seconds are stored there. -/
theorem out_of_grid_observation_counterexample :
    (writeAssetCols [(0 : Int)] exOpenMin 0
        [(sessionOpen exOpenMin 0 - 120, exBar),
         (sessionOpen exOpenMin 0 + 60, exBar2)]).open_col 0 = u32 exBar.op ∧
    (writeAssetCols [(0 : Int)] exOpenMin 0
        [(sessionOpen exOpenMin 0 - 120, exBar),
         (sessionOpen exOpenMin 0 + 60, exBar2)]).dt_col 0
      = u32ofInt (sessionOpen exOpenMin 0 - 120) ∧
    u32ofInt (sessionOpen exOpenMin 0 - 120) ≠ 0 := by
  decide

/-- C6 (amended): the scatter loop of `_write_internal` performs no range
validation. An observation earlier than every grid minute gets scatter index
`searchsorted = 0` and is silently written into offset 0 of the columns
(both its value and its timestamp), and a timestamp later than every grid
minute gets scatter index equal to the grid length — one past the last valid
position (an out-of-bounds numpy index), never an
`OutOfCalendarRange`/`OutOfSessionRange` failure. -/
theorem scatter_out_of_grid_unchecked
    (minutes : List Timestamp) (cols : Cols) (t : Timestamp) (bar : Bar)
    (hbefore : ∀ y ∈ minutes, t < y) :
    searchsorted minutes t = 0 ∧
    (scatterRow minutes cols (t, bar)).open_col 0 = u32 bar.op ∧
    (scatterRow minutes cols (t, bar)).dt_col 0 = u32ofInt t ∧
    (∀ u : Timestamp, (∀ y ∈ minutes, y < u) →
      searchsorted minutes u = minutes.length) := by
  have h0 : searchsorted minutes t = 0 :=
    searchsorted_eq_zero _ _ (fun y hy => le_of_lt (hbefore y hy))
  have hself := scatterRow_self minutes cols t bar
  rw [h0] at hself
  exact ⟨h0, hself.1, hself.2.2.2.2.2, fun u hu => searchsorted_eq_length _ _ hu⟩

/-- C6 witness: on the one-day grid, a timestamp two minutes before the open
scatters to index 0 with its data stored there, and a timestamp one minute
past the 390th minute scatters to the out-of-bounds index 390. -/
theorem scatter_out_of_grid_unchecked_witness :
    searchsorted (fullMinutesForDays [(0 : Int)] exOpenMin
        (sessionOpen exOpenMin 0) (sessionOpen exOpenMin 0))
      (sessionOpen exOpenMin 0 - 120) = 0 ∧
    (scatterRow (fullMinutesForDays [(0 : Int)] exOpenMin
        (sessionOpen exOpenMin 0) (sessionOpen exOpenMin 0))
      (zeroCols 390) (sessionOpen exOpenMin 0 - 120, exBar)).open_col 0
      = u32 exBar.op ∧
    (scatterRow (fullMinutesForDays [(0 : Int)] exOpenMin
        (sessionOpen exOpenMin 0) (sessionOpen exOpenMin 0))
      (zeroCols 390) (sessionOpen exOpenMin 0 - 120, exBar)).dt_col 0
      = u32ofInt (sessionOpen exOpenMin 0 - 120) ∧
    searchsorted (fullMinutesForDays [(0 : Int)] exOpenMin
        (sessionOpen exOpenMin 0) (sessionOpen exOpenMin 0))
      (sessionOpen exOpenMin 0 + 390 * 60)
      = (fullMinutesForDays [(0 : Int)] exOpenMin
        (sessionOpen exOpenMin 0) (sessionOpen exOpenMin 0)).length := by
  have h := scatter_out_of_grid_unchecked
    (fullMinutesForDays [(0 : Int)] exOpenMin
      (sessionOpen exOpenMin 0) (sessionOpen exOpenMin 0))
    (zeroCols 390) (sessionOpen exOpenMin 0 - 120) exBar (by decide)
  exact ⟨h.1, h.2.1, h.2.2.1, h.2.2.2 (sessionOpen exOpenMin 0 + 390 * 60) (by decide)⟩

/- ## Claim C7 -/

/-- C7: writing an instrument whose destination path already exists fails
with the destination-exists error (the exclusive `os.makedirs(path)`) before
any column data is produced, so a persisted instrument is never silently
overwritten. -/
theorem write_existing_destination_fails
    (existing : List String) (directory : String) (asset_id : Nat)
    (cal : List Date) (openMin : Date → Int) (a : Date)
    (obs : List (Timestamp × Bar))
    (h : assetPath directory asset_id ∈ existing) :
    writeAsset existing directory asset_id cal openMin a obs
      = Except.error WriteError.destinationExists := by
  unfold writeAsset
  rw [if_pos h]

/-- C7 witness: a store that already holds asset 1's path rejects a second
write of asset 1. -/
theorem write_existing_destination_fails_witness :
    writeAsset [assetPath exDir 1] exDir 1 exCal exOpenMin 0 []
      = Except.error WriteError.destinationExists :=
  write_existing_destination_fails [assetPath exDir 1] exDir 1 exCal exOpenMin 0
    [] (List.mem_singleton.mpr rfl)

/- ## Claim C8 -/

/-- C8: the reader's per-(field, asset) cache means the storage backend is
consulted at most once per pair: a repeated `_open_minute_file` call returns
the identical handle and leaves the state unchanged; a first call on an
uncached pair stores the freshly opened handle; a cached pair short-circuits
to the cached handle; and no call for any pair ever evicts an existing cache
entry. -/
theorem open_minute_file_cached_once
    (g : String × Nat → Nat) (st : ReaderState) (field : String) (asset : Nat) :
    (openMinuteFile g (openMinuteFile g st field asset).2 field asset
      = ((openMinuteFile g st field asset).1, (openMinuteFile g st field asset).2)) ∧
    (st.carrays (field, asset) = none →
      openMinuteFile g st field asset
        = (g (field, asset),
           ⟨Function.update st.carrays (field, asset) (some (g (field, asset)))⟩)) ∧
    (∀ c, st.carrays (field, asset) = some c →
      openMinuteFile g st field asset = (c, st)) ∧
    (∀ st' : ReaderState, ∀ f' : String, ∀ a' c : Nat,
      st'.carrays (field, asset) = some c →
      ((openMinuteFile g st' f' a').2).carrays (field, asset) = some c) := by
    refine ⟨?_, ?_, ?_, ?_⟩
    · cases h : st.carrays (field, asset) with
      | none =>
        have h1 : openMinuteFile g st field asset
            = (g (field, asset),
               ⟨Function.update st.carrays (field, asset)
                 (some (g (field, asset)))⟩) := by
          simp [openMinuteFile, h]
        rw [h1]
        simp [openMinuteFile, Function.update_same]
      | some c =>
        have h1 : openMinuteFile g st field asset = (c, st) := by
          simp [openMinuteFile, h]
        rw [h1]
        simp [openMinuteFile, h]
    · intro hn
      simp [openMinuteFile, hn]
    · intro c hc
      simp [openMinuteFile, hc]
    · intro st' f' a' c hc
      unfold openMinuteFile
      cases hmatch : st'.carrays (f', a') with
      | some c2 => simpa using hc
      | none =>
        by_cases heq : ((f', a') : String × Nat) = (field, asset)
        · rw [heq] at hmatch
          rw [hmatch] at hc
          cases hc
        · simpa using (Function.update_noteq (Ne.symm heq) _ _).trans hc

/-- C8 witness: opening the `open` column of asset 1 on a fresh reader
caches handle 7; the repeated call returns the identical handle and state,
and an already-cached pair short-circuits. -/
theorem open_minute_file_cached_once_witness :
    openMinuteFile exGetCtable emptyReader fieldOpen 1
      = (7, ⟨Function.update emptyReader.carrays (fieldOpen, 1) (some 7)⟩) ∧
    openMinuteFile exGetCtable (openMinuteFile exGetCtable emptyReader fieldOpen 1).2
        fieldOpen 1
      = ((openMinuteFile exGetCtable emptyReader fieldOpen 1).1,
         (openMinuteFile exGetCtable emptyReader fieldOpen 1).2) ∧
    openMinuteFile exGetCtable ⟨fun _ => some 5⟩ fieldClose 2
      = (5, ⟨fun _ => some 5⟩) := by
  have h := open_minute_file_cached_once exGetCtable emptyReader fieldOpen 1
  have h2 := open_minute_file_cached_once exGetCtable ⟨fun _ => some 5⟩ fieldClose 2
  exact ⟨h.2.1 rfl, h.1, h2.2.2.1 5 rfl⟩

end ZiplineMinutes
